import Mathlib

/-
Verification of the H→γγ MVA training pipeline (Hyy_MVA_Training.ipynb).

The notebook is a linear pipeline:
  Event Loader → Preselector → Feature Engine → Dataset Assembler →
  Trainer (split + scale + fit) → Evaluator → Persister.

Numeric detector quantities (float64 in the source) are embedded as real
numbers; the tabular stage (pandas/sklearn cells) is embedded over the
rationals so that its operations are executable.  Awkward-array columns
become Lean lists; boolean masks become lists of booleans applied
positionally, exactly as `events[mask]` filters a record array.
-/

open Classical

/-- One loaded collision event: the per-photon columns read from the tree.
Each list holds one entry per photon candidate, in stored order. -/
structure Event where
  photon_pt : List ℝ
  photon_eta : List ℝ
  photon_phi : List ℝ
  photon_e : List ℝ
  photon_isTightID : List Bool
  photon_ptcone20 : List ℝ

/-- Cut: at least 2 photon candidates (`ak.num(events.photon_pt) >= 2`). -/
def n_photons_cut (e : Event) : Prop := 2 ≤ e.photon_pt.length

/-- Cut: both leading photons pass tight identification
(`photon_isTightID[:,0] == True` and `[:,1] == True`).  Out-of-range
indices are totalised with `getD`; the source applies this cut only after
requiring at least two photons, so the default is never read there. -/
def tight_id_cut (e : Event) : Prop :=
  e.photon_isTightID.getD 0 false = true ∧ e.photon_isTightID.getD 1 false = true

/-- Cut: leading photon pt > 50, sub-leading pt > 30
(`photon_pt[:,0] > 50 & photon_pt[:,1] > 30`). -/
def pt_cut (e : Event) : Prop :=
  50 < e.photon_pt.getD 0 0 ∧ 30 < e.photon_pt.getD 1 0

/-- Cut: calorimeter isolation `ptcone20 / pt < 0.055` for both leading
photons. -/
def iso_cut (e : Event) : Prop :=
  e.photon_ptcone20.getD 0 0 / e.photon_pt.getD 0 0 < 0.055 ∧
  e.photon_ptcone20.getD 1 0 / e.photon_pt.getD 1 0 < 0.055

/-- Veto on the detector transition region for the leading photon:
`~((np.abs(eta) > 1.37) & (np.abs(eta) < 1.52))`. -/
def eta_cut_ph0 (e : Event) : Prop :=
  ¬ (1.37 < |e.photon_eta.getD 0 0| ∧ |e.photon_eta.getD 0 0| < 1.52)

/-- Same veto for the sub-leading photon. -/
def eta_cut_ph1 (e : Event) : Prop :=
  ¬ (1.37 < |e.photon_eta.getD 1 0| ∧ |e.photon_eta.getD 1 0| < 1.52)

/-- Combined eta transition-region cut (`eta_cut_ph0 & eta_cut_ph1`). -/
def eta_cut (e : Event) : Prop := eta_cut_ph0 e ∧ eta_cut_ph1 e

/-- x-component of a photon momentum from (pt, phi). -/
noncomputable def px (pt phi : ℝ) : ℝ := pt * Real.cos phi

/-- y-component of a photon momentum from (pt, phi). -/
noncomputable def py (pt phi : ℝ) : ℝ := pt * Real.sin phi

/-- z-component of a photon momentum from (pt, eta). -/
noncomputable def pz (pt eta : ℝ) : ℝ := pt * Real.sinh eta

/-- Two-body invariant mass of the leading diphoton system, from
`vector.zip({pt, eta, phi, e})` and `(p4[:,0] + p4[:,1]).mass`.
`Real.sqrt` returns 0 on a negative argument where numpy would give NaN;
no claim below depends on that corner. -/
noncomputable def m_yy (e : Event) : ℝ :=
  let pt0 := e.photon_pt.getD 0 0
  let pt1 := e.photon_pt.getD 1 0
  let eta0 := e.photon_eta.getD 0 0
  let eta1 := e.photon_eta.getD 1 0
  let phi0 := e.photon_phi.getD 0 0
  let phi1 := e.photon_phi.getD 1 0
  let e0 := e.photon_e.getD 0 0
  let e1 := e.photon_e.getD 1 0
  Real.sqrt ((e0 + e1) ^ 2 - (px pt0 phi0 + px pt1 phi1) ^ 2
    - (py pt0 phi0 + py pt1 phi1) ^ 2 - (pz pt0 eta0 + pz pt1 eta1) ^ 2)

/-- Mass-based isolation cut: `photon_pt[:,i] / m_yy > 0.35` for both
leading photons. -/
def mass_iso_cut (e : Event) : Prop :=
  0.35 < e.photon_pt.getD 0 0 / m_yy e ∧ 0.35 < e.photon_pt.getD 1 0 / m_yy e

/-- Conjunction of all six preselection predicates, in source order. -/
def all_cuts (e : Event) : Prop :=
  n_photons_cut e ∧ tight_id_cut e ∧ pt_cut e ∧ iso_cut e ∧ eta_cut e ∧ mass_iso_cut e

/-- The per-event weight column of a loaded batch: either one scalar per
event (`ndim == 1`) or one sequence per event (`ndim > 1`). -/
inductive WCol where
  | flat (ws : List ℝ)
  | jagged (wss : List (List ℝ))

/-- A loaded event batch, as returned by `tree.arrays(branches)`:
the per-photon columns plus, when the weight branch was read,
the `mcEventWeight` column. -/
structure Batch where
  events : List Event
  mcEventWeight : Option WCol

/-- Positional boolean-mask filtering, as awkward's `arr[mask]`. -/
def maskFilter (mask : List Bool) (l : List α) : List α :=
  (mask.zip l).filterMap (fun p => if p.1 then some p.2 else none)

/-- Apply a mask to a weight column. -/
def wcolFilter (mask : List Bool) : WCol → WCol
  | .flat ws => .flat (maskFilter mask ws)
  | .jagged wss => .jagged (maskFilter mask wss)

/-- One filtering step `events = events[mask]`: the boolean mask computed
from the event columns is applied to every column of the record array, the
weight column included. -/
def filterBatch (m : Event → Bool) (b : Batch) : Batch :=
  ⟨maskFilter (b.events.map m) b.events,
   b.mcEventWeight.map (wcolFilter (b.events.map m))⟩

/-- The boolean mask of a cut predicate, as the source's numpy comparison
arrays (`tight_id_cut`, `pt_cut`, ... are boolean arrays there). -/
noncomputable def cutMask (p : Event → Prop) : Event → Bool :=
  fun e => decide (p e)

/-- The Preselector: the six cuts applied in source order.  The source's
`if len(events) == 0: continue` checks only skip work on an empty batch
and do not change the final survivor set. -/
noncomputable def preselectBatch (b : Batch) : Batch :=
  filterBatch (cutMask mass_iso_cut)
    (filterBatch (cutMask eta_cut)
      (filterBatch (cutMask iso_cut)
        (filterBatch (cutMask pt_cut)
          (filterBatch (cutMask tight_id_cut)
            (filterBatch (cutMask n_photons_cut) b)))))

lemma maskFilter_map_self (f : α → Bool) (l : List α) :
    maskFilter (l.map f) l = l.filter f := by
  induction l with
  | nil => rfl
  | cons a t ih =>
    simp only [maskFilter, List.map_cons, List.zip_cons_cons, List.filterMap_cons,
      List.filter_cons] at *
    cases h : f a <;> simp [h, ih]

lemma filterBatch_events (m : Event → Bool) (b : Batch) :
    (filterBatch m b).events = b.events.filter m := by
  simp [filterBatch, maskFilter_map_self]

/-- C1 — the set of events emitted by the Preselector is exactly the set of
input events satisfying the conjunction of the six cut predicates (at
least two photons; both leading photons tight; pt 50/30; isolation ratio
below 0.055; |eta| outside (1.37, 1.52); pt divided by the two-body
invariant mass above 0.35), so membership in the output does not depend on
the order in which the cuts are applied. -/
theorem preselector_mem_iff_conjunction (b : Batch) (e : Event) :
    e ∈ (preselectBatch b).events ↔ e ∈ b.events ∧ all_cuts e := by
  simp only [preselectBatch, filterBatch_events, List.mem_filter,
    cutMask, decide_eq_true_eq, all_cuts]
  tauto

/-- C9 — an event whose leading photons each have |eta| exactly 1.37 or
exactly 1.52 passes the transition-region veto: the band is tested with
strict inequalities, so both endpoints survive the cut. -/
theorem eta_band_endpoints_survive (e : Event)
    (h0 : |e.photon_eta.getD 0 0| = 1.37 ∨ |e.photon_eta.getD 0 0| = 1.52)
    (h1 : |e.photon_eta.getD 1 0| = 1.37 ∨ |e.photon_eta.getD 1 0| = 1.52) :
    eta_cut_ph0 e ∧ eta_cut_ph1 e := by
  constructor
  · intro hband
    rcases h0 with h | h <;> rw [h] at hband <;>
      exact absurd hband (by norm_num)
  · intro hband
    rcases h1 with h | h <;> rw [h] at hband <;>
      exact absurd hband (by norm_num)

/-- A concrete event sitting exactly on both band endpoints. -/
noncomputable def etaEndpointEvent : Event :=
  ⟨[60, 40], [1.37, -1.52], [0, 0], [60, 40], [true, true], [0, 0]⟩

theorem eta_band_endpoints_survive_witness :
    eta_cut_ph0 etaEndpointEvent ∧ eta_cut_ph1 etaEndpointEvent :=
  eta_band_endpoints_survive etaEndpointEvent
    (Or.inl (by show |(1.37 : ℝ)| = 1.37; exact abs_of_nonneg (by norm_num)))
    (Or.inr (by show |(-1.52 : ℝ)| = 1.52
                rw [abs_neg]; exact abs_of_nonneg (by norm_num)))

/-- numpy's `np.mod(x, y)`: `x - y * floor(x / y)` (sign of the divisor). -/
noncomputable def np_mod (x y : ℝ) : ℝ := x - y * ⌊x / y⌋

/-- The wrap-safe angular difference feature,
`np.abs(np.mod(ph1_phi - ph2_phi + np.pi, 2 * np.pi) - np.pi)`. -/
noncomputable def delta_phi_yy (phi1 phi2 : ℝ) : ℝ :=
  |np_mod (phi1 - phi2 + Real.pi) (2 * Real.pi) - Real.pi|

lemma np_mod_two_pi_mem (x : ℝ) :
    0 ≤ np_mod x (2 * Real.pi) ∧ np_mod x (2 * Real.pi) < 2 * Real.pi := by
  have h2pi : (0 : ℝ) < 2 * Real.pi := by positivity
  have heq : np_mod x (2 * Real.pi) = 2 * Real.pi * Int.fract (x / (2 * Real.pi)) := by
    unfold np_mod Int.fract
    field_simp
  constructor
  · rw [heq]
    exact mul_nonneg h2pi.le (Int.fract_nonneg _)
  · rw [heq]
    have hlt := Int.fract_lt_one (x / (2 * Real.pi))
    nlinarith [Int.fract_nonneg (x / (2 * Real.pi))]

/-- C2 — for every pair of azimuthal angles, the computed feature
`delta_phi_yy = |((phi1 - phi2 + π) mod 2π) - π|` lies in [0, π],
wrap-around cases included. -/
theorem delta_phi_yy_mem_Icc (phi1 phi2 : ℝ) :
    0 ≤ delta_phi_yy phi1 phi2 ∧ delta_phi_yy phi1 phi2 ≤ Real.pi := by
  refine ⟨abs_nonneg _, ?_⟩
  unfold delta_phi_yy
  rcases np_mod_two_pi_mem (phi1 - phi2 + Real.pi) with ⟨h0, h2⟩
  rw [abs_le]
  constructor <;> linarith

/-- The per-event weight column after filtering (lines 289-293 of the
source): the weight field when present, `ak.ones_like(ph1_pt)` when the
branch is absent, and the first element of each per-event sequence when
the field is two-dimensional.  The source indexes `[:,0]`, which raises on
an empty inner sequence; the `headD 0` default stands for that
never-returned case and is excluded by hypothesis wherever it matters. -/
noncomputable def event_weights (b : Batch) : List ℝ :=
  match b.mcEventWeight with
  | none => List.replicate b.events.length 1
  | some (.flat ws) => ws
  | some (.jagged wss) => wss.map (fun l => l.headD 0)

/-- The survivor mask of the full preselection, relative to the input
batch's event order. -/
noncomputable def surv_mask (b : Batch) : List Bool :=
  b.events.map (cutMask all_cuts)

/-- Length of the weight column (number of events it covers). -/
def wcolLen (b : Batch) : ℕ :=
  match b.mcEventWeight with
  | none => b.events.length
  | some (.flat ws) => ws.length
  | some (.jagged wss) => wss.length

/-- The weight column has one entry per event, as any column of a loaded
record array does. -/
def wcolAligned (b : Batch) : Prop := wcolLen b = b.events.length

/-- Every per-event weight sequence is non-empty (so `[:,0]` is defined). -/
def innersNonempty (b : Batch) : Prop :=
  match b.mcEventWeight with
  | some (.jagged wss) => ∀ l ∈ wss, 0 < l.length
  | _ => True

lemma maskFilter_cons (b : Bool) (m : List Bool) (x : α) (l : List α) :
    maskFilter (b :: m) (x :: l)
      = if b then x :: maskFilter m l else maskFilter m l := by
  cases b <;> simp [maskFilter]

lemma maskFilter_nil_right (m : List Bool) : maskFilter m ([] : List α) = [] := by
  simp [maskFilter]

lemma mem_of_mem_maskFilter {x : α} :
    ∀ (m : List Bool) (l : List α), x ∈ maskFilter m l → x ∈ l := by
  intro m
  induction m with
  | nil => intro l h; simp [maskFilter] at h
  | cons b m ih =>
    intro l h
    cases l with
    | nil => simp [maskFilter] at h
    | cons y l =>
      rw [maskFilter_cons] at h
      by_cases hb : b = true
      · rw [hb, if_pos rfl] at h
        rcases List.mem_cons.mp h with rfl | hm
        · exact List.mem_cons_self _ _
        · exact List.mem_cons_of_mem _ (ih _ hm)
      · rw [Bool.not_eq_true] at hb
        rw [hb] at h
        simp only [Bool.false_eq_true, if_false] at h
        exact List.mem_cons_of_mem _ (ih _ h)

lemma maskFilter_comp (dp dq : α → Bool) :
    ∀ (es : List α) (ws : List β), es.length = ws.length →
    maskFilter ((maskFilter (es.map dq) es).map dp) (maskFilter (es.map dq) ws)
      = maskFilter (es.map (fun e => dq e && dp e)) ws := by
  intro es
  induction es with
  | nil =>
    intro ws h
    cases ws with
    | nil => rfl
    | cons b ws => simp at h
  | cons a es ih =>
    intro ws h
    cases ws with
    | nil => simp at h
    | cons b ws =>
      simp only [List.length_cons, Nat.add_right_cancel_iff] at h
      cases hq : dq a <;> cases hp : dp a <;>
        simp [maskFilter_cons, hq, hp, ih ws h]

lemma filterBatch_comp (f g : Event → Bool) (b : Batch) (hA : wcolAligned b) :
    filterBatch f (filterBatch g b) = filterBatch (fun e => g e && f e) b := by
  obtain ⟨es, w⟩ := b
  unfold filterBatch
  cases w with
  | none =>
    simp only [Option.map_none']
    rw [maskFilter_comp f g es es rfl]
  | some wc =>
    cases wc with
    | flat ws =>
      simp only [wcolAligned, wcolLen] at hA
      simp only [Option.map_some', wcolFilter]
      rw [maskFilter_comp f g es es rfl, maskFilter_comp f g es ws hA.symm]
    | jagged wss =>
      simp only [wcolAligned, wcolLen] at hA
      simp only [Option.map_some', wcolFilter]
      rw [maskFilter_comp f g es es rfl, maskFilter_comp f g es wss hA.symm]

lemma preselect_eq_all (b : Batch) (hA : wcolAligned b) :
    preselectBatch b = filterBatch (cutMask all_cuts) b := by
  unfold preselectBatch
  rw [filterBatch_comp (cutMask tight_id_cut) (cutMask n_photons_cut) b hA,
    filterBatch_comp (cutMask pt_cut) _ b hA,
    filterBatch_comp (cutMask iso_cut) _ b hA,
    filterBatch_comp (cutMask eta_cut) _ b hA,
    filterBatch_comp (cutMask mass_iso_cut) _ b hA]
  have hmask : (fun e =>
      ((((cutMask n_photons_cut e && cutMask tight_id_cut e) && cutMask pt_cut e)
        && cutMask iso_cut e) && cutMask eta_cut e) && cutMask mass_iso_cut e)
      = cutMask all_cuts := by
    funext e
    unfold cutMask all_cuts
    by_cases h1 : n_photons_cut e <;> by_cases h2 : tight_id_cut e <;>
      by_cases h3 : pt_cut e <;> by_cases h4 : iso_cut e <;>
      by_cases h5 : eta_cut e <;> by_cases h6 : mass_iso_cut e <;>
      simp [h1, h2, h3, h4, h5, h6]
  rw [hmask]

/-- C8 — for every surviving event the emitted weight is the raw weight
field carried through unchanged: with the weight branch absent every
survivor gets weight 1.0; with a scalar weight column the survivors keep
exactly their original entries; with a per-event sequence column the
first element of each surviving event's sequence is taken as nominal. -/
theorem event_weights_carried (b : Batch) (hA : wcolAligned b)
    (hI : innersNonempty b) :
    (b.mcEventWeight = none →
      event_weights (preselectBatch b)
        = List.replicate (preselectBatch b).events.length 1) ∧
    (∀ ws, b.mcEventWeight = some (WCol.flat ws) →
      event_weights (preselectBatch b) = maskFilter (surv_mask b) ws) ∧
    (∀ wss, b.mcEventWeight = some (WCol.jagged wss) →
      event_weights (preselectBatch b)
          = (maskFilter (surv_mask b) wss).map (fun l => l.headD 0) ∧
        ∀ l ∈ maskFilter (surv_mask b) wss, l ≠ []) := by
  have hpre := preselect_eq_all b hA
  refine ⟨?_, ?_, ?_⟩
  · intro hw
    rw [hpre]
    obtain ⟨es, w⟩ := b
    simp only at hw
    subst hw
    rfl
  · intro ws hw
    rw [hpre]
    obtain ⟨es, w⟩ := b
    simp only at hw
    subst hw
    rfl
  · intro wss hw
    constructor
    · rw [hpre]
      obtain ⟨es, w⟩ := b
      simp only at hw
      subst hw
      rfl
    · intro l hl
      obtain ⟨es, w⟩ := b
      simp only at hw
      subst hw
      simp only [innersNonempty] at hI
      have := hI l (mem_of_mem_maskFilter _ _ hl)
      intro hnil
      rw [hnil] at this
      simp at this

/-- A concrete two-photon event used by witnesses. -/
noncomputable def simpleEvent : Event :=
  ⟨[60, 40], [0.1, 0.2], [0, 0], [60, 40], [true, true], [0, 0]⟩

/-- A concrete one-event batch with a scalar weight column. -/
noncomputable def flatBatch : Batch := ⟨[simpleEvent], some (WCol.flat [2])⟩

theorem event_weights_carried_witness :
    event_weights (preselectBatch flatBatch) = maskFilter (surv_mask flatBatch) [2] :=
  ((event_weights_carried flatBatch rfl trivial).2.1) [2] rfl

/-- A file on disk as the Event Loader sees it: which branches its record
collection exposes, and the column content. -/
structure RawFile where
  availBranches : List String
  events : List Event
  mcEventWeight : Option WCol

/-- The outcome of `uproot.open(path + ":" + tree)` for one glob match:
either the open/read raises (missing file, missing collection, malformed
structure) or a readable file. -/
inductive FileOutcome where
  | unopenable (msg : String)
  | file (f : RawFile)

/-- The fixed branch list of the configuration cell. -/
def branches_to_read_mc : List String :=
  ["photon_pt", "photon_eta", "photon_phi", "photon_e",
   "photon_isTightID", "photon_ptcone20", "mcEventWeight"]

/-- The body of the loader's `try` block, `tree.arrays(branches_param)`:
requesting a branch the file does not expose raises, which the `except`
arm turns into a logged skip.  A successful read yields a batch holding
exactly the requested fields. -/
def tryRead (req : List String) : FileOutcome → Except String Batch
  | .unopenable msg => .error msg
  | .file f =>
    if req.all (fun br => f.availBranches.contains br) then
      .ok ⟨f.events, if req.contains "mcEventWeight" then f.mcEventWeight else none⟩
    else
      .error "branch not found in file"

/-- Feature: leading photon pt normalised by the diphoton mass. -/
noncomputable def ph1_pt_norm (e : Event) : ℝ := e.photon_pt.getD 0 0 / m_yy e

/-- Feature: sub-leading photon pt normalised by the diphoton mass. -/
noncomputable def ph2_pt_norm (e : Event) : ℝ := e.photon_pt.getD 1 0 / m_yy e

/-- Feature: leading photon pseudorapidity. -/
def ph1_eta (e : Event) : ℝ := e.photon_eta.getD 0 0

/-- Feature: sub-leading photon pseudorapidity. -/
def ph2_eta (e : Event) : ℝ := e.photon_eta.getD 1 0

/-- Feature: `np.abs(ph1_eta - ph2_eta)`. -/
noncomputable def delta_eta_yy (e : Event) : ℝ := |ph1_eta e - ph2_eta e|

/-- Feature: `np.sqrt(delta_eta_yy**2 + delta_phi_yy**2)`. -/
noncomputable def delta_R_yy (e : Event) : ℝ :=
  Real.sqrt (delta_eta_yy e ^ 2
    + delta_phi_yy (e.photon_phi.getD 0 0) (e.photon_phi.getD 1 0) ^ 2)

/-- Feature: leading photon isolation normalised by its pt. -/
noncomputable def ph1_ptcone20_norm (e : Event) : ℝ :=
  e.photon_ptcone20.getD 0 0 / e.photon_pt.getD 0 0

/-- Feature: sub-leading photon isolation normalised by its pt. -/
noncomputable def ph2_ptcone20_norm (e : Event) : ℝ :=
  e.photon_ptcone20.getD 1 0 / e.photon_pt.getD 1 0

/-- Feature: `np.abs(np.tanh(0.5 * (ph1_eta - ph2_eta)))`, the approximate
Collins-Soper angle cosine. -/
noncomputable def cos_theta_cs_yy (e : Event) : ℝ :=
  |Real.tanh (0.5 * (ph1_eta e - ph2_eta e))|

/-- Diagnostic column: transverse momentum of the diphoton system. -/
noncomputable def pt_yy (e : Event) : ℝ :=
  let pt0 := e.photon_pt.getD 0 0
  let pt1 := e.photon_pt.getD 1 0
  let phi0 := e.photon_phi.getD 0 0
  let phi1 := e.photon_phi.getD 1 0
  Real.sqrt ((px pt0 phi0 + px pt1 phi1) ^ 2 + (py pt0 phi0 + py pt1 phi1) ^ 2)

/-- One row of the per-file DataFrame: the ten MVA features followed by the
two diagnostic columns, in the source's dictionary order. -/
noncomputable def featureRow (e : Event) : List ℝ :=
  [ph1_pt_norm e, ph2_pt_norm e, ph1_eta e, ph2_eta e, delta_eta_yy e,
   delta_phi_yy (e.photon_phi.getD 0 0) (e.photon_phi.getD 1 0),
   delta_R_yy e, ph1_ptcone20_norm e, ph2_ptcone20_norm e, cos_theta_cs_yy e,
   m_yy e, pt_yy e]

/-- The per-file body after a successful read: skip an empty batch, apply
the Preselector, skip if nothing survives, otherwise emit the feature rows
with the event weight and the signal flag appended. -/
noncomputable def processBatch (flag : ℝ) (b : Batch) : Option (List (List ℝ)) :=
  if b.events.isEmpty then none
  else
    let s := preselectBatch b
    if s.events.isEmpty then none
    else some ((s.events.zip (event_weights s)).map
      (fun p => featureRow p.1 ++ [p.2, flag]))

/-- The Event Loader's file loop: each file is read inside a try; a read
failure is logged and that file alone is skipped; the surviving per-file
DataFrames are collected in glob order.  (The source's final
`pd.concat(df_list)` is the join of the returned list; its per-file
"No events" prints are omitted here.) -/
noncomputable def load_and_preprocess_mc_for_mva (req : List String) (flag : ℝ) :
    List FileOutcome → List (List (List ℝ)) × List String
  | [] => ([], [])
  | fo :: rest =>
    let r := load_and_preprocess_mc_for_mva req flag rest
    match tryRead req fo with
    | .error msg => (r.1, msg :: r.2)
    | .ok b =>
      match processBatch flag b with
      | none => r
      | some df => (df :: r.1, r.2)

/-- The read outcome as an option (ok batches only). -/
def readOk (req : List String) (fo : FileOutcome) : Option Batch :=
  match tryRead req fo with
  | .ok b => some b
  | .error _ => none

lemma load_nil (req : List String) (flag : ℝ) :
    load_and_preprocess_mc_for_mva req flag [] = ([], []) := rfl

lemma load_cons (req : List String) (flag : ℝ) (fo : FileOutcome)
    (rest : List FileOutcome) :
    load_and_preprocess_mc_for_mva req flag (fo :: rest)
      = match tryRead req fo with
        | .error msg => ((load_and_preprocess_mc_for_mva req flag rest).1,
            msg :: (load_and_preprocess_mc_for_mva req flag rest).2)
        | .ok b =>
          match processBatch flag b with
          | none => load_and_preprocess_mc_for_mva req flag rest
          | some df => (df :: (load_and_preprocess_mc_for_mva req flag rest).1,
              (load_and_preprocess_mc_for_mva req flag rest).2) := by
  rfl

lemma load_data_characterization (req : List String) (flag : ℝ) :
    ∀ files : List FileOutcome,
      (load_and_preprocess_mc_for_mva req flag files).1
        = files.filterMap (fun fo => (readOk req fo).bind (processBatch flag)) := by
  intro files
  unfold readOk
  induction files with
  | nil => rfl
  | cons fo rest ih =>
    rw [load_cons, List.filterMap_cons]
    cases htr : tryRead req fo with
    | error msg => simpa [htr] using ih
    | ok b =>
      cases hpb : processBatch flag b with
      | none => simpa [htr, hpb] using ih
      | some df => simp [htr, hpb, ih]

lemma load_append (req : List String) (flag : ℝ) (l1 l2 : List FileOutcome) :
    load_and_preprocess_mc_for_mva req flag (l1 ++ l2)
      = ((load_and_preprocess_mc_for_mva req flag l1).1
           ++ (load_and_preprocess_mc_for_mva req flag l2).1,
         (load_and_preprocess_mc_for_mva req flag l1).2
           ++ (load_and_preprocess_mc_for_mva req flag l2).2) := by
  induction l1 with
  | nil => simp [load_nil]
  | cons fo rest ih =>
    rw [List.cons_append, load_cons, load_cons]
    cases htr : tryRead req fo with
    | error msg => simp [ih]
    | ok b =>
      cases hpb : processBatch flag b with
      | none => simpa [hpb] using ih
      | some df => simp [hpb, ih]

/-- C7 — a per-file read failure is logged in place and skips only that
file: the emitted data is unchanged by the failing file and the remaining
files are still processed; in general the loader's output is the ordered
concatenation of the per-file DataFrames of the files that loaded
successfully. -/
theorem loader_skips_failed_file (req : List String) (flag : ℝ)
    (pre post : List FileOutcome) (msg : String) :
    ((load_and_preprocess_mc_for_mva req flag
        (pre ++ FileOutcome.unopenable msg :: post)).1
      = (load_and_preprocess_mc_for_mva req flag (pre ++ post)).1) ∧
    ((load_and_preprocess_mc_for_mva req flag
        (pre ++ FileOutcome.unopenable msg :: post)).2
      = (load_and_preprocess_mc_for_mva req flag pre).2
          ++ msg :: (load_and_preprocess_mc_for_mva req flag post).2) ∧
    (∀ files : List FileOutcome,
      (load_and_preprocess_mc_for_mva req flag files).1
        = files.filterMap (fun fo => (readOk req fo).bind (processBatch flag))) := by
  have hstep : load_and_preprocess_mc_for_mva req flag
      (FileOutcome.unopenable msg :: post)
      = ((load_and_preprocess_mc_for_mva req flag post).1,
         msg :: (load_and_preprocess_mc_for_mva req flag post).2) := rfl
  refine ⟨?_, ?_, load_data_characterization req flag⟩
  · rw [load_append, hstep, load_append]
  · rw [load_append, hstep]

/-- C10 — the Event Loader unconditionally requests `mcEventWeight`.  A
file whose record collection lacks that branch therefore fails the whole
per-file read: it is skipped and contributes zero events.  Conversely any
batch that was read successfully through the configured branch list
carries the weight field (before and after preselection), so the
default-to-1.0 fallback of the weight computation is unreachable for such
batches. -/
theorem weight_branch_always_requested (f : RawFile) (flag : ℝ)
    (pre post : List FileOutcome)
    (hwf : f.mcEventWeight.isSome = f.availBranches.contains "mcEventWeight") :
    (f.availBranches.contains "mcEventWeight" = false →
      (∃ msg, tryRead branches_to_read_mc (FileOutcome.file f) = Except.error msg) ∧
      (load_and_preprocess_mc_for_mva branches_to_read_mc flag
          (pre ++ FileOutcome.file f :: post)).1
        = (load_and_preprocess_mc_for_mva branches_to_read_mc flag (pre ++ post)).1) ∧
    (∀ b, tryRead branches_to_read_mc (FileOutcome.file f) = Except.ok b →
      b.mcEventWeight.isSome = true
        ∧ (preselectBatch b).mcEventWeight.isSome = true) := by
  have hmem : "mcEventWeight" ∈ branches_to_read_mc := by
    simp [branches_to_read_mc]
  constructor
  · intro hno
    have hcond :
        (branches_to_read_mc.all fun br => f.availBranches.contains br) = false := by
      cases hall : branches_to_read_mc.all fun br => f.availBranches.contains br with
      | false => rfl
      | true =>
        exfalso
        have hx := List.all_eq_true.mp hall _ hmem
        rw [hno] at hx
        exact Bool.false_ne_true hx
    have herr : tryRead branches_to_read_mc (FileOutcome.file f)
        = Except.error "branch not found in file" := by
      simp only [tryRead, hcond, Bool.false_eq_true, if_false]
    refine ⟨⟨_, herr⟩, ?_⟩
    have hstep : load_and_preprocess_mc_for_mva branches_to_read_mc flag
        (FileOutcome.file f :: post)
        = ((load_and_preprocess_mc_for_mva branches_to_read_mc flag post).1,
           "branch not found in file"
             :: (load_and_preprocess_mc_for_mva branches_to_read_mc flag post).2) := by
      rw [load_cons, herr]
    rw [load_append, hstep, load_append]
  · intro b htr
    simp only [tryRead] at htr
    by_cases hcond :
        (branches_to_read_mc.all fun br => f.availBranches.contains br) = true
    · rw [if_pos hcond] at htr
      have hav : f.availBranches.contains "mcEventWeight" = true :=
        List.all_eq_true.mp hcond _ hmem
      have hreq : branches_to_read_mc.contains "mcEventWeight" = true := by decide
      have hb : b = ⟨f.events, f.mcEventWeight⟩ := by
        cases htr
        rw [if_pos hreq]
      have hsome : b.mcEventWeight.isSome = true := by
        rw [hb]
        exact hwf.trans hav
      refine ⟨hsome, ?_⟩
      obtain ⟨w, hw⟩ := Option.isSome_iff_exists.mp hsome
      simp [preselectBatch, filterBatch, hw]
    · rw [if_neg hcond] at htr
      exact absurd htr (by simp)

/-- A concrete readable file lacking the weight branch. -/
noncomputable def rawNoWeight : RawFile := ⟨["photon_pt"], [], none⟩

theorem weight_branch_always_requested_witness :
    (rawNoWeight.availBranches.contains "mcEventWeight" = false →
      (∃ msg, tryRead branches_to_read_mc (FileOutcome.file rawNoWeight)
          = Except.error msg) ∧
      (load_and_preprocess_mc_for_mva branches_to_read_mc 0
          [FileOutcome.file rawNoWeight]).1
        = (load_and_preprocess_mc_for_mva branches_to_read_mc 0 []).1) ∧
    (∀ b, tryRead branches_to_read_mc (FileOutcome.file rawNoWeight)
        = Except.ok b →
      b.mcEventWeight.isSome = true
        ∧ (preselectBatch b).mcEventWeight.isSome = true) :=
  weight_branch_always_requested rawNoWeight 0 [] [] (by decide)

/-- A pandas DataFrame of the tabular stage: named columns and rows of
rationals (floats in the source).  `df.empty` is `rows.isEmpty` here —
every frame the pipeline builds has columns whenever it has rows. -/
structure DataFrame where
  cols : List String
  rows : List (List ℚ)

/-- The fixed ordered MVA feature list of the configuration cell. -/
def mva_features_list : List String :=
  ["ph1_pt_norm", "ph2_pt_norm", "ph1_eta", "ph2_eta",
   "delta_eta_yy", "delta_phi_yy", "delta_R_yy",
   "ph1_ptcone20_norm", "ph2_ptcone20_norm", "cos_theta_cs_yy"]

/-- The Dataset Assembler cell: concatenate signal and background when both
are non-empty and shuffle (the `shuffle` argument stands for the seeded
permutation `df.sample(frac=1, random_state=42)`); fall back to the single
non-empty table with a warning; report the total-data-exhaustion error and
leave an empty frame when both are empty.  The boolean result records
whether that error branch was taken. -/
def assembleMC (shuffle : List (List ℚ) → List (List ℚ))
    (sig bkg : DataFrame) : DataFrame × Bool :=
  if !sig.rows.isEmpty && !bkg.rows.isEmpty then
    (⟨sig.cols, shuffle (sig.rows ++ bkg.rows)⟩, false)
  else if !sig.rows.isEmpty then (sig, false)
  else if !bkg.rows.isEmpty then (bkg, false)
  else (⟨[], []⟩, true)

/-- Index of a named column. -/
def colIdx (cols : List String) (f : String) : ℕ :=
  (cols.findIdx? (fun c => c == f)).getD 0

/-- Column access `df[name]`. -/
def getCol (df : DataFrame) (name : String) : List ℚ :=
  df.rows.map (fun r => r.getD (colIdx df.cols name) 0)

/-- Row projection of `df[mva_features_list]`. -/
def projRow (cols : List String) (r : List ℚ) : List ℚ :=
  mva_features_list.map (fun f => r.getD (colIdx cols f) 0)

/-- The feature/target cell: on a non-empty combined frame, check every
required feature name against the columns; on a miss, report the missing
names together with the available columns and leave X, y, weights empty;
otherwise project the features and read the label and weight columns. -/
def selectXYW (df : DataFrame) :
    Option (List String × List String) × (List (List ℚ) × List ℚ × List ℚ) :=
  if df.rows.isEmpty then (none, ([], [], []))
  else
    let missing := mva_features_list.filter (fun f => !(df.cols.contains f))
    if missing.isEmpty then
      (none, (df.rows.map (projRow df.cols), getCol df "isSignal",
        getCol df "eventWeight"))
    else
      (some (missing, df.cols), ([], [], []))

/-- pandas `Series.nunique`. -/
def nunique (l : List ℚ) : ℕ := l.dedup.length

/-- The `stratify=y if y.nunique() > 1 else None` argument. -/
def strat_of (y : List ℚ) : Option (List ℚ) := if 1 < nunique y then some y else none

/-- Modelled from the library semantics of
`train_test_split(..., test_size=0.3, random_state=42, stratify=...)`: the
splitter chooses a partition of row indices determined by the row count,
the fixed seed and the stratify labels — never by the feature values.  A
`SplitChoice` is that choice function, passed in explicitly. -/
abbrev SplitChoice := ℕ → Option (List ℚ) → List ℕ × List ℕ

/-- Row indices assigned to the training partition. -/
def train_idx (splitIdx : SplitChoice) (n : ℕ) (y : List ℚ) : List ℕ :=
  (splitIdx n (strat_of y)).1

/-- Row indices assigned to the test partition. -/
def test_idx (splitIdx : SplitChoice) (n : ℕ) (y : List ℚ) : List ℕ :=
  (splitIdx n (strat_of y)).2

/-- Rows of `X` at the given indices. -/
def rowsAt (X : List (List ℚ)) (idx : List ℕ) : List (List ℚ) :=
  idx.filterMap (fun i => X.get? i)

/-- The training partition `X_train`. -/
def X_train_of (splitIdx : SplitChoice) (X : List (List ℚ)) (y : List ℚ) :
    List (List ℚ) :=
  rowsAt X (train_idx splitIdx X.length y)

/-- The test partition `X_test`. -/
def X_test_of (splitIdx : SplitChoice) (X : List (List ℚ)) (y : List ℚ) :
    List (List ℚ) :=
  rowsAt X (test_idx splitIdx X.length y)

/-- Column `j` of a row-major matrix. -/
def colOf (j : ℕ) (rows : List (List ℚ)) : List ℚ :=
  rows.map (fun r => r.getD j 0)

/-- Arithmetic mean of a column. -/
def qmean (l : List ℚ) : ℚ := l.sum / l.length

/-- Biased variance of a column (sklearn's `StandardScaler` uses ddof=0). -/
def qvar (l : List ℚ) : ℚ := (l.map (fun x => (x - qmean l) ^ 2)).sum / l.length

/-- `StandardScaler.fit`: the per-feature (mean, variance) pairs. -/
def fitScaler (rows : List (List ℚ)) : List (ℚ × ℚ) :=
  (List.range (rows.headD []).length).map
    (fun j => (qmean (colOf j rows), qvar (colOf j rows)))

/-- The Fitted Transform: `scaler.fit(X_train)` — computed from the
training partition only. -/
def scaler_fit_of (splitIdx : SplitChoice) (X : List (List ℚ)) (y : List ℚ) :
    List (ℚ × ℚ) :=
  fitScaler (X_train_of splitIdx X y)

/-- `scaler.transform` on one row: `(x - mean) / sqrt(var)`, with a zero
variance scaled by 1 as in sklearn's `_handle_zeros_in_scale`. -/
noncomputable def scaleRow (fit : List (ℚ × ℚ)) (r : List ℚ) : List ℝ :=
  (r.zip fit).map (fun p => ((p.1 : ℝ) - (p.2.1 : ℝ))
    / (if p.2.2 = 0 then 1 else Real.sqrt (p.2.2 : ℝ)))

/-- `X_train_scaled = scaler.fit_transform(X_train)`. -/
noncomputable def X_train_scaled_of (splitIdx : SplitChoice)
    (X : List (List ℚ)) (y : List ℚ) : List (List ℝ) :=
  (X_train_of splitIdx X y).map (scaleRow (scaler_fit_of splitIdx X y))

/-- `X_test_scaled = scaler.transform(X_test)`: the test partition scaled
with the training-derived statistics, never refit. -/
noncomputable def X_test_scaled_of (splitIdx : SplitChoice)
    (X : List (List ℚ)) (y : List ℚ) : List (List ℝ) :=
  (X_test_of splitIdx X y).map (scaleRow (scaler_fit_of splitIdx X y))

lemma filterMap_congr_mem {l : List α} {f g : α → Option β}
    (h : ∀ a ∈ l, f a = g a) : l.filterMap f = l.filterMap g := by
  induction l with
  | nil => rfl
  | cons a t ih =>
    rw [List.filterMap_cons, List.filterMap_cons, h a (List.mem_cons_self a t),
      ih (fun x hx => h x (List.mem_cons_of_mem _ hx))]

/-- C3 — the fitted standardization transform is a function of the training
partition only: two datasets agreeing on every training-partition row (the
labels, which steer the stratified index choice, being shared) yield the
identical fitted transform however their test rows differ; and the test
partition is transformed with those training-derived statistics, not
refit. -/
theorem scaler_fit_depends_only_on_train (splitIdx : SplitChoice)
    (X X' : List (List ℚ)) (y : List ℚ)
    (hlen : X.length = X'.length)
    (hagree : ∀ i ∈ train_idx splitIdx X.length y, X.get? i = X'.get? i) :
    scaler_fit_of splitIdx X y = scaler_fit_of splitIdx X' y ∧
    X_test_scaled_of splitIdx X y
      = (X_test_of splitIdx X y).map (scaleRow (scaler_fit_of splitIdx X y)) := by
  have hXt : X_train_of splitIdx X y = X_train_of splitIdx X' y := by
    unfold X_train_of rowsAt
    rw [← hlen]
    exact filterMap_congr_mem (fun i hi => by rw [hagree i hi])
  constructor
  · unfold scaler_fit_of
    rw [hXt]
  · rfl

/-- A concrete index choice: row 0 trains, row 1 tests. -/
def sidx0 : SplitChoice := fun _ _ => ([0], [1])

theorem scaler_fit_depends_only_on_train_witness :
    scaler_fit_of sidx0 [[1], [2]] [1, 0] = scaler_fit_of sidx0 [[1], [3]] [1, 0] ∧
    X_test_scaled_of sidx0 [[1], [2]] [1, 0]
      = (X_test_of sidx0 [[1], [2]] [1, 0]).map
          (scaleRow (scaler_fit_of sidx0 [[1], [2]] [1, 0])) :=
  scaler_fit_depends_only_on_train sidx0 [[1], [2]] [[1], [3]] [1, 0]
    rfl (by decide)

/-- Observable outcome of one notebook run past the Assembler: which error
conditions were reported and which stages actually did work. -/
structure RunResult where
  exhausted : Bool
  missingReport : Option (List String × List String)
  splitDone : Bool
  stratified : Bool
  trained : Bool
  evaluated : Bool
  saved : Bool

/-- numpy `.size` of a 2-d array: total number of entries. -/
def npSize (m : List (List ℝ)) : ℕ := (m.map List.length).sum

/-- The cells after the Assembler: feature validation (X, y, weights),
the `if not X.empty` split-and-scale guard, the `if X_train_scaled.size >
0` training guard (`mlp_model = None` otherwise), the
`if mlp_model and X_test_scaled.size > 0` evaluation guard, and the
`if mlp_model and scaler` persist guard (short-circuiting on the model, so
an undefined scaler is never touched). -/
noncomputable def runFromCombined (splitIdx : SplitChoice) (df : DataFrame)
    (exhausted : Bool) : RunResult :=
  let sel := selectXYW df
  let X := sel.2.1
  let y := sel.2.2.1
  if X.isEmpty then
    ⟨exhausted, sel.1, false, false, false, false, false⟩
  else
    let trained := decide (0 < npSize (X_train_scaled_of splitIdx X y))
    ⟨exhausted, sel.1, true, decide (1 < nunique y), trained,
      trained && decide (0 < npSize (X_test_scaled_of splitIdx X y)), trained⟩

/-- The full tabular pipeline from the two per-label tables. -/
noncomputable def runPipeline (shuffle : List (List ℚ) → List (List ℚ))
    (splitIdx : SplitChoice) (sig bkg : DataFrame) : RunResult :=
  runFromCombined splitIdx (assembleMC shuffle sig bkg).1
    (assembleMC shuffle sig bkg).2

/-- C4 — when both the signal and the background table are empty, the run
reports the total-data-exhaustion condition and nothing downstream
happens: no split, no training, no evaluation, no artifact persisted. -/
theorem both_empty_fatal_no_artifacts (shuffle : List (List ℚ) → List (List ℚ))
    (splitIdx : SplitChoice) (sig bkg : DataFrame)
    (hs : sig.rows = []) (hb : bkg.rows = []) :
    runPipeline shuffle splitIdx sig bkg
      = ⟨true, none, false, false, false, false, false⟩ := by
  unfold runPipeline assembleMC
  rw [hs, hb]
  rfl

theorem both_empty_fatal_no_artifacts_witness :
    runPipeline id sidx0 ⟨[], []⟩ ⟨[], []⟩
      = ⟨true, none, false, false, false, false, false⟩ :=
  both_empty_fatal_no_artifacts id sidx0 ⟨[], []⟩ ⟨[], []⟩ rfl rfl

/-- C5 — on a non-empty assembled dataset missing any required MVA feature
column, the run reports exactly the missing names together with the
available columns and does no splitting, training, evaluation or
persisting.  (An entirely empty assembly is already fatal at the Assembler
as total data exhaustion and never reaches this check.) -/
theorem missing_features_fatal (splitIdx : SplitChoice) (df : DataFrame)
    (ex : Bool) (hrows : df.rows ≠ [])
    (hmiss : mva_features_list.filter (fun f => !(df.cols.contains f)) ≠ []) :
    runFromCombined splitIdx df ex
      = ⟨ex, some (mva_features_list.filter (fun f => !(df.cols.contains f)),
            df.cols), false, false, false, false, false⟩ := by
  unfold runFromCombined selectXYW
  obtain ⟨cols, rows⟩ := df
  cases rows with
  | nil => exact absurd rfl hrows
  | cons r rs =>
    cases hm : mva_features_list.filter (fun f => !(cols.contains f)) with
    | nil => exact absurd hm hmiss
    | cons m ms => simp [hm]

/-- A concrete frame with none of the feature columns. -/
def dfMissing : DataFrame := ⟨["foo"], [[0]]⟩

theorem missing_features_fatal_witness :
    runFromCombined sidx0 dfMissing false
      = ⟨false, some (mva_features_list.filter
            (fun f => !(dfMissing.cols.contains f)), dfMissing.cols),
          false, false, false, false, false⟩ :=
  missing_features_fatal sidx0 dfMissing false (by decide) (by decide)

/-- A concrete frame whose label column has a single distinct value. -/
def dfDegenerate : DataFrame :=
  ⟨mva_features_list ++ ["m_yy", "pt_yy", "eventWeight", "isSignal"],
   [List.replicate 14 1, List.replicate 14 1]⟩

/-- C6 (counterexample) — on a single-label dataset the source does not
flag a degenerate-dataset condition: the split is performed (unstratified),
a model is trained, and no error condition is reported, contradicting the
claim that this is treated as a fatal or flagged condition rather than a
silent fallback. -/
theorem degenerate_label_not_flagged :
    nunique (getCol dfDegenerate "isSignal") = 1 ∧
    (runFromCombined sidx0 dfDegenerate false).splitDone = true ∧
    (runFromCombined sidx0 dfDegenerate false).stratified = false ∧
    (runFromCombined sidx0 dfDegenerate false).trained = true ∧
    (runFromCombined sidx0 dfDegenerate false).missingReport = none ∧
    (runFromCombined sidx0 dfDegenerate false).exhausted = false := by
  decide

lemma selectXYW_ok (cols : List String) (r : List ℚ) (rs : List (List ℚ))
    (hm : mva_features_list.filter (fun f => !(cols.contains f)) = []) :
    selectXYW ⟨cols, r :: rs⟩
      = (none, ((r :: rs).map (projRow cols),
          getCol ⟨cols, r :: rs⟩ "isSignal",
          getCol ⟨cols, r :: rs⟩ "eventWeight")) := by
  unfold selectXYW
  dsimp only
  rw [hm]
  rfl

/-- C6 (amended) — when the label column holds a single distinct value the
Trainer silently falls back to an unstratified train/test split and
proceeds: the split is performed without stratification and no
degenerate-dataset condition is reported. -/
theorem degenerate_label_silent_fallback (splitIdx : SplitChoice)
    (df : DataFrame) (ex : Bool) (hrows : df.rows ≠ [])
    (hmiss : mva_features_list.filter (fun f => !(df.cols.contains f)) = [])
    (hdeg : nunique (getCol df "isSignal") = 1) :
    (runFromCombined splitIdx df ex).splitDone = true ∧
    (runFromCombined splitIdx df ex).stratified = false ∧
    (runFromCombined splitIdx df ex).missingReport = none ∧
    (runFromCombined splitIdx df ex).exhausted = ex := by
  obtain ⟨cols, rows⟩ := df
  cases rows with
  | nil => exact absurd rfl hrows
  | cons r rs =>
    dsimp only at hmiss
    unfold runFromCombined
    rw [selectXYW_ok cols r rs hmiss]
    refine ⟨rfl, ?_, rfl, rfl⟩
    show decide (1 < nunique (getCol ⟨cols, r :: rs⟩ "isSignal")) = false
    rw [hdeg]
    rfl

theorem degenerate_label_silent_fallback_witness :
    (runFromCombined sidx0 dfDegenerate false).splitDone = true ∧
    (runFromCombined sidx0 dfDegenerate false).stratified = false ∧
    (runFromCombined sidx0 dfDegenerate false).missingReport = none ∧
    (runFromCombined sidx0 dfDegenerate false).exhausted = false :=
  degenerate_label_silent_fallback sidx0 dfDegenerate false
    (by decide) (by decide) (by decide)
